import Mathlib

/-!
# Verification of the leveled-logging core (moisespsena-go/go-logging)

A shallow embedding of the repository's data model and operations, with
theorems settling the frozen claims about it.  Go machine integers are
modelled as `Nat` with an explicit `% 2^64` where the source uses `uint64`;
Go's `error` results are modelled as `Option String` (`none` = `nil`);
fallible constructors return `Except`.
-/

namespace GoLogging

/-- Severity levels of the logging package, most severe first, mirroring the
Go `Level` enumeration (`CRITICAL = 0`, …, `DEBUG = 5`; a *smaller* ordinal
is *more* severe). -/
inductive Level where
  | CRITICAL
  | ERROR
  | WARNING
  | NOTICE
  | INFO
  | DEBUG
deriving DecidableEq, Repr

/-- The numeric ordinal of a level (`iota` value in the Go source). -/
def Level.toNat : Level → Nat
  | .CRITICAL => 0
  | .ERROR => 1
  | .WARNING => 2
  | .NOTICE => 3
  | .INFO => 4
  | .DEBUG => 5

/-- A module name, represented as its list of dot-delimited segments
(so `"a.b.c"` is `["a", "b", "c"]` and the default entry `""` is `[]`). -/
abbrev ModuleName := List String

/-- The module→level table of the leveled backend: an association list from
module names (or the empty default name) to threshold levels. -/
abbrev LevelTable := List (ModuleName × Level)

/-- Association-list lookup in the module→level table (the Go map read
`l.levels[module]`). -/
def lookupTable : LevelTable → ModuleName → Option Level
  | [], _ => none
  | (k, v) :: rest, m => if k = m then some v else lookupTable rest m

/-- Modelled from the spec: the leveled backend's module-level resolution
(the `moduleLeveled` type's `GetLevel`, whose source file is not in the
repository snapshot).  Per the spec, the effective level of a module is
resolved by walking from the full module name and repeatedly trimming the
last dot-delimited segment until an explicit entry is found, falling back to
the empty-string default entry; `none` means no entry exists anywhere.
Here the walk is indexed by the number `k` of leading segments kept:
`k = m.length` is the full name, each step trims the last segment
(`m.take (k+1)` to `m.take k`), and `k = 0` is the default entry `[]`. -/
def resolveLevel (tbl : LevelTable) (m : ModuleName) : Nat → Option Level
  | 0 => lookupTable tbl []
  | k + 1 =>
    match lookupTable tbl (m.take (k + 1)) with
    | some l => some l
    | none => resolveLevel tbl m k

/-- Modelled from the spec: `IsEnabledFor(level, module)` of the leveled
backend.  The event is allowed when `level` is at least as severe as the
resolved threshold (numerically `level.toNat ≤ threshold.toNat`, since the
ordinal grows toward DEBUG); when no entry exists anywhere up to and
including the default, the module is enabled for every level (fail-open). -/
def IsEnabledFor (tbl : LevelTable) (lvl : Level) (m : ModuleName) : Bool :=
  match resolveLevel tbl m m.length with
  | some t => decide (lvl.toNat ≤ t.toNat)
  | none => true

/-- Declarative characterization of the longest-matching-prefix lookup:
keeping the first `k` segments of `m` hits an explicit entry `t`, and every
strictly longer trim-prefix of `m` misses the table. -/
def HasLongestMatch (tbl : LevelTable) (m : ModuleName) (k : Nat) (t : Level) : Prop :=
  k ≤ m.length ∧ lookupTable tbl (m.take k) = some t ∧
    ∀ j, k < j → j ≤ m.length → lookupTable tbl (m.take j) = none

/-- No trim-prefix of `m` (the full name, its successive last-segment trims,
nor the empty default name) has an entry in the table. -/
def NoMatch (tbl : LevelTable) (m : ModuleName) : Prop :=
  ∀ j, j ≤ m.length → lookupTable tbl (m.take j) = none

theorem resolveLevel_eq_some_iff (tbl : LevelTable) (m : ModuleName) (k : Nat) (t : Level) :
    resolveLevel tbl m k = some t ↔
      ∃ j, j ≤ k ∧ lookupTable tbl (m.take j) = some t ∧
        ∀ i, j < i → i ≤ k → lookupTable tbl (m.take i) = none := by
  induction k with
  | zero =>
    simp only [resolveLevel]
    constructor
    · intro h
      exact ⟨0, le_refl 0, by simpa using h, by omega⟩
    · rintro ⟨j, hj, hl, _⟩
      interval_cases j
      simpa using hl
  | succ k ih =>
    simp only [resolveLevel]
    cases hlk : lookupTable tbl (m.take (k + 1)) with
    | some l =>
      simp only [Option.some.injEq]
      constructor
      · rintro rfl
        exact ⟨k + 1, le_refl _, hlk, by omega⟩
      · rintro ⟨j, hj, hl, hnone⟩
        rcases Nat.lt_or_ge j (k + 1) with hlt | hge
        · have := hnone (k + 1) hlt (le_refl _)
          rw [this] at hlk; exact absurd hlk (by simp)
        · have hje : j = k + 1 := le_antisymm hj hge
          subst hje
          rw [hl] at hlk
          exact (Option.some.injEq _ _).mp hlk.symm |>.symm ▸ rfl
    | none =>
      rw [ih]
      constructor
      · rintro ⟨j, hj, hl, hnone⟩
        refine ⟨j, Nat.le_succ_of_le hj, hl, fun i hji hik => ?_⟩
        rcases Nat.lt_or_ge i (k + 1) with hlt | hge
        · exact hnone i hji (by omega)
        · have : i = k + 1 := le_antisymm hik hge
          subst this; exact hlk
      · rintro ⟨j, hj, hl, hnone⟩
        have hjk : j ≤ k := by
          rcases Nat.lt_or_ge j (k + 1) with hlt | hge
          · omega
          · have : j = k + 1 := le_antisymm hj hge
            subst this; rw [hl] at hlk; exact absurd hlk (by simp)
        exact ⟨j, hjk, hl, fun i hji hik => hnone i hji (by omega)⟩

theorem resolveLevel_eq_none_iff (tbl : LevelTable) (m : ModuleName) (k : Nat) :
    resolveLevel tbl m k = none ↔
      ∀ j, j ≤ k → lookupTable tbl (m.take j) = none := by
  induction k with
  | zero =>
    simp only [resolveLevel]
    constructor
    · intro h j hj
      interval_cases j
      simpa using h
    · intro h
      simpa using h 0 (le_refl 0)
  | succ k ih =>
    simp only [resolveLevel]
    cases hlk : lookupTable tbl (m.take (k + 1)) with
    | some l =>
      simp only [reduceCtorEq, false_iff, not_forall]
      exact ⟨k + 1, le_refl _, by simp [hlk]⟩
    | none =>
      rw [ih]
      constructor
      · intro h j hj
        rcases Nat.lt_or_ge j (k + 1) with hlt | hge
        · exact h j (by omega)
        · have : j = k + 1 := le_antisymm hj hge
          subst this; exact hlk
      · intro h j hj
        exact h j (by omega)

/-- C1: `IsEnabledFor(level, m)` returns true iff `level` is at least as
severe as the threshold obtained by longest-matching-prefix lookup over
`m`'s dot-delimited segments (repeatedly trimming the last segment, falling
back to the empty default entry), and returns true for every level when no
entry exists anywhere up to and including the empty name (fail-open). -/
theorem isEnabledFor_iff_longest_match (tbl : LevelTable) (lvl : Level) (m : ModuleName) :
    IsEnabledFor tbl lvl m = true ↔
      ((∃ k t, HasLongestMatch tbl m k t ∧ lvl.toNat ≤ t.toNat) ∨ NoMatch tbl m) := by
  unfold IsEnabledFor
  cases hres : resolveLevel tbl m m.length with
  | some t =>
    simp only [decide_eq_true_eq]
    constructor
    · intro hle
      left
      obtain ⟨j, hj, hl, hnone⟩ := (resolveLevel_eq_some_iff tbl m m.length t).mp hres
      exact ⟨j, t, ⟨hj, hl, hnone⟩, hle⟩
    · rintro (⟨k, t', ⟨hk, hl, hnone⟩, hle⟩ | hno)
      · have : resolveLevel tbl m m.length = some t' :=
          (resolveLevel_eq_some_iff tbl m m.length t').mpr ⟨k, hk, hl, hnone⟩
        rw [hres] at this
        cases this
        exact hle
      · have : resolveLevel tbl m m.length = none :=
          (resolveLevel_eq_none_iff tbl m m.length).mpr hno
        rw [hres] at this
        exact absurd this (by simp)
  | none =>
    simp only [true_iff]
    right
    exact (resolveLevel_eq_none_iff tbl m m.length).mp hres

/-! ## Record model -/

/-- A logging argument (one element of a Record's `Args []interface{}`).
A `redactor raw redacted` value implements the `Redactor` interface: rendered
directly it shows `raw`; its `Redacted()` method yields the plain value
`redacted` (in the repository the helper `Redact` produces a string of `*`). -/
inductive Arg where
  | plain (s : String)
  | redactor (raw : String) (redacted : String)
deriving DecidableEq, Repr

/-- How `fmt` renders one argument (the `%v` image of the value). -/
def Arg.render : Arg → String
  | .plain s => s
  | .redactor raw _ => raw

/-- The in-place substitution the redaction loop applies to one argument:
a value implementing `Redactor` is replaced by its `Redacted()` result,
any other value is kept (`r.Args[i] = redactor.Redacted()`). -/
def redactArg : Arg → Arg
  | .redactor _ red => .plain red
  | .plain s => .plain s

/-- Whether a value implements the `Redactor` interface (the type assertion
`arg.(Redactor)` succeeds). -/
def Arg.isRedactor : Arg → Bool
  | .redactor _ _ => true
  | .plain _ => false

/-- One piece of a printf format string, pre-parsed: a literal chunk or a
verb consuming the next argument.  Models Go's `fmt.Fprintf` format-string
scanning of the record's format pointer. -/
inductive FmtItem where
  | lit (s : String)
  | verb
deriving DecidableEq, Repr

/-- Models `fmt.Fprintf(format, args...)`: literal chunks are copied, each
verb consumes the next argument's rendering (missing arguments render Go's
`%!v(MISSING)` marker; surplus arguments are not modelled). -/
def sprintf : List FmtItem → List Arg → String
  | [], _ => ""
  | .lit s :: rest, args => s ++ sprintf rest args
  | .verb :: rest, a :: args => a.render ++ sprintf rest args
  | .verb :: rest, [] => "%!v(MISSING)" ++ sprintf rest []

/-- Models `fmt.Fprintln(args...)` followed by stripping the trailing
newline (`buf.Truncate(buf.Len() - 1)`): the arguments' renderings joined by
single spaces. -/
def sprintlnStripped (args : List Arg) : String :=
  String.intercalate " " (args.map Arg.render)

/-- A log record (`Record`).  `message` is the memoized message cache
(`nil` pointer = not yet materialized); `fmtStr` is the optional format
string (`fmt *string`, pre-parsed into items); `formatted` is the memoized
formatter-rendered line, with `""` meaning not yet rendered, exactly as in
the source's `if r.formatted == ""` check.  The `formatter Formatter`
interface field is supplied to `Formatted` as an explicit argument of the
model (see `Formatter` below). -/
structure Record where
  ID : Nat
  Time : Nat
  Module : String
  Level : Level
  Args : List Arg
  message : Option String
  fmtStr : Option (List FmtItem)
  formatted : String
deriving DecidableEq, Repr

/-- The body of `Record.Message` that materializes a fresh message: redact
the arguments in place, then render with `Fprintf` when a format string is
present and with `Fprintln` (newline stripped) otherwise. -/
def renderMessage (fmtStr : Option (List FmtItem)) (args : List Arg) : String :=
  match fmtStr with
  | some f => sprintf f args
  | none => sprintlnStripped args

/-- `Record.Message`: returns the cached message when present; otherwise
replaces every `Redactor` argument by its redacted form, renders the
message, stores it in the cache and returns it.  The record being mutated
through its pointer receiver is modelled by returning the updated record
alongside the result. -/
def Record.Message (r : Record) : Record × String :=
  match r.message with
  | some m => (r, m)
  | none =>
    let args := r.Args.map redactArg
    let msg := renderMessage r.fmtStr args
    ({ r with Args := args, message := some msg }, msg)

/-- C2: on a fresh record (message cache empty, as every record built by
`Log.log` is), `Message()` is idempotent — the second call returns the
byte-identical string and leaves the record unchanged — and every
`Redactor` argument is replaced by its redacted form before formatting,
exactly once, so no raw `Redactor` value survives into the argument list of
any materialized output. -/
theorem message_idempotent_and_redacts (r : Record) (h : r.message = none) :
    (r.Message.1.Message.2 = r.Message.2 ∧ r.Message.1.Message.1 = r.Message.1) ∧
      r.Message.1.Args = r.Args.map redactArg ∧
      r.Message.2 = renderMessage r.fmtStr (r.Args.map redactArg) ∧
      ∀ a ∈ r.Message.1.Args, a.isRedactor = false := by
  unfold Record.Message
  rw [h]
  refine ⟨⟨rfl, rfl⟩, rfl, rfl, ?_⟩
  intro a ha
  simp only [List.mem_map] at ha
  obtain ⟨b, _, rfl⟩ := ha
  cases b <;> rfl

/-- Witness for C2 at a concrete record: one plain argument and one
password-like `Redactor` argument. -/
theorem message_idempotent_and_redacts_witness :
    (let r : Record :=
      { ID := 1, Time := 0, Module := "svc", Level := .INFO,
        Args := [.plain "user", .redactor "hunter2" "*******"],
        message := none, fmtStr := none, formatted := "" }
     r.message = none ∧
      ((r.Message.1.Message.2 = r.Message.2 ∧ r.Message.1.Message.1 = r.Message.1) ∧
        r.Message.1.Args = r.Args.map redactArg ∧
        r.Message.2 = renderMessage r.fmtStr (r.Args.map redactArg) ∧
        ∀ a ∈ r.Message.1.Args, a.isRedactor = false)) :=
  ⟨rfl, message_idempotent_and_redacts _ rfl⟩

/-! ## Formatted line cache -/

/-- The injected `Formatter` capability: given a stack-depth hint and the
record, produce the fully rendered log line (`Format(calldepth, r, buf)`
writing into a byte buffer).  In the source it is the record's
`formatter Formatter` interface field; the model passes it explicitly. -/
abbrev Formatter := Nat → Record → String

/-- `Record.Formatted(calldepth)`: renders the full log line through the
formatter and caches it, but the cache test is `r.formatted == ""` — the
empty string doubles as the "not yet rendered" marker.  The third component
records whether the formatter was invoked by this call. -/
def Record.Formatted (f : Formatter) (calldepth : Nat) (r : Record) :
    Record × String × Bool :=
  if r.formatted = "" then
    ({ r with formatted := f (calldepth + 1) r }, f (calldepth + 1) r, true)
  else
    (r, r.formatted, false)

theorem formatted_of_empty (f : Formatter) (d : Nat) (r : Record) (h : r.formatted = "") :
    Record.Formatted f d r =
      ({ r with formatted := f (d + 1) r }, f (d + 1) r, true) := by
  unfold Record.Formatted
  rw [if_pos h]

theorem formatted_of_nonempty (f : Formatter) (d : Nat) (r : Record) (h : r.formatted ≠ "") :
    Record.Formatted f d r = (r, r.formatted, false) := by
  unfold Record.Formatted
  rw [if_neg h]

/-- A formatter whose rendering is empty at small call depths: writes
nothing for depth hints ≤ 3 and `"line"` above. -/
def emptyAtShallowDepth : Formatter := fun d _ => if d ≤ 3 then "" else "line"

/-- A fresh record for the `Formatted` cache counterexample. -/
def fmtCexRecord : Record :=
  { ID := 1, Time := 0, Module := "m", Level := .INFO, Args := [],
    message := none, fmtStr := none, formatted := "" }

/-- C7 counterexample: when the first `Formatted` call renders the empty
string, the `formatted == ""` cache test fails to latch, so a second call
invokes the formatter again and can return a different string
(`Formatted(2) = ""`, then `Formatted(5) = "line"`). -/
theorem formatted_cache_counterexample :
    ((fmtCexRecord.Formatted emptyAtShallowDepth 2).1.Formatted
        emptyAtShallowDepth 5).2.2 = true ∧
      ((fmtCexRecord.Formatted emptyAtShallowDepth 2).1.Formatted
        emptyAtShallowDepth 5).2.1 ≠ (fmtCexRecord.Formatted emptyAtShallowDepth 2).2.1 := by
  constructor
  · rfl
  · decide

/-- C7 as amended: provided the first `Formatted` call returns a non-empty
string, every later call returns that identical cached string without
invoking the formatter again and without changing the record. -/
theorem formatted_cached_after_nonempty (f : Formatter) (r : Record) (d1 d2 : Nat)
    (h : (r.Formatted f d1).2.1 ≠ "") :
    ((r.Formatted f d1).1.Formatted f d2).2.1 = (r.Formatted f d1).2.1 ∧
      ((r.Formatted f d1).1.Formatted f d2).2.2 = false ∧
      ((r.Formatted f d1).1.Formatted f d2).1 = (r.Formatted f d1).1 := by
  by_cases h0 : r.formatted = ""
  · rw [formatted_of_empty f d1 r h0] at h ⊢
    have hne : f (d1 + 1) r ≠ "" := h
    rw [formatted_of_nonempty f d2 _ hne]
    exact ⟨rfl, rfl, rfl⟩
  · rw [formatted_of_nonempty f d1 r h0] at h ⊢
    rw [formatted_of_nonempty f d2 r h0]
    exact ⟨rfl, rfl, rfl⟩

/-- Witness for the amended C7 at a formatter that always renders a
non-empty line. -/
theorem formatted_cached_after_nonempty_witness :
    ((fmtCexRecord.Formatted (fun _ _ => "X") 2).2.1 ≠ "") ∧
      (((fmtCexRecord.Formatted (fun _ _ => "X") 2).1.Formatted (fun _ _ => "X") 7).2.1 =
          (fmtCexRecord.Formatted (fun _ _ => "X") 2).2.1 ∧
        ((fmtCexRecord.Formatted (fun _ _ => "X") 2).1.Formatted (fun _ _ => "X") 7).2.2 = false ∧
        ((fmtCexRecord.Formatted (fun _ _ => "X") 2).1.Formatted (fun _ _ => "X") 7).1 =
          (fmtCexRecord.Formatted (fun _ _ => "X") 2).1) :=
  ⟨by decide, formatted_cached_after_nonempty (fun _ _ => "X") fmtCexRecord 2 7 (by decide)⟩

/-! ## Async/sync delivery wrappers (backends package) -/

/-- A Go `error` result: `none` is `nil`. -/
abbrev GoErr := Option String

/-- The diagnostic entry `log_.Errorf("http async %q failed: %s", name, err)`
emitted by a failing background delivery (both async wrappers use this
message shape, the file wrapper with its `Name`, the HTTP wrapper with its
URL). -/
def asyncFailDiag (name e : String) : String :=
  "http async \x22" ++ name ++ "\x22 failed: " ++ e

/-- The async/sync file-writer wrapper (`WriteCloserBackend`): an embedded
`io.WriteCloser` (the open file, modelled by its handle id, `none` = nil),
the embedded `logging.Backend` doing the actual rendering/writing (modelled
as the I/O action it performs on a record), a diagnostic name and the
delivery mode flag. -/
structure WriteCloserBackend where
  writeCloser : Option Nat
  backend : Level → Nat → Record → GoErr
  Name : String
  Async : Bool

/-- `WriteCloserBackend.Log`: in async mode, spawn a goroutine that logs a
private copy of the record through the embedded backend and reports any
delivery error to the package's diagnostic logger, returning `nil`
immediately; in sync mode, perform the delivery on the caller and return
its error.  The second component lists the spawned background tasks, each
represented by the diagnostic entries it will eventually emit. -/
def WriteCloserBackend.Log (this : WriteCloserBackend) (level : Level)
    (calldepth : Nat) (rec : Record) : GoErr × List (List String) :=
  if this.Async then
    (none,
      [match this.backend level calldepth rec with
       | some e => [asyncFailDiag this.Name e]
       | none => []])
  else
    (this.backend level calldepth rec, [])

/-- The HTTP sink (`HttpBackend`).  The private `log` method — JSON or
formatted marshalling followed by the HTTP round-trip through the injected
client — is an I/O action modelled as the function field `logIO`; `url` is
`this.URL.String()`. -/
structure HttpBackend where
  url : String
  HttpGet : Bool
  FormattedOpt : Bool
  Async : Bool
  logIO : Level → Nat → Record → GoErr

/-- `HttpBackend.Log`: in async mode, spawn a goroutine delivering a private
copy of the record via the private `log` method and report any error to the
package's diagnostic logger, returning `nil` immediately; in sync mode
perform the delivery and return its error. -/
def HttpBackend.Log (this : HttpBackend) (level : Level) (calldepth : Nat)
    (rec : Record) : GoErr × List (List String) :=
  if this.Async then
    (none,
      [match this.logIO level calldepth rec with
       | some e => [asyncFailDiag this.url e]
       | none => []])
  else
    (this.logIO level calldepth rec, [])

/-- C3: for every async-mode sink (`WriteCloserBackend` or `HttpBackend`
with `Async` true) and every record, `Log` returns a nil error regardless of
the underlying delivery's outcome, and a delivery failure in the background
task produces exactly one diagnostic entry instead of being propagated to
the caller. -/
theorem async_log_nil_error_one_diag (w : WriteCloserBackend) (hb : HttpBackend)
    (level : Level) (cd : Nat) (rec : Record)
    (hw : w.Async = true) (hh : hb.Async = true) :
    (w.Log level cd rec).1 = none ∧ (hb.Log level cd rec).1 = none ∧
      (∀ e, w.backend level cd rec = some e →
        (w.Log level cd rec).2 = [[asyncFailDiag w.Name e]]) ∧
      (∀ e, hb.logIO level cd rec = some e →
        (hb.Log level cd rec).2 = [[asyncFailDiag hb.url e]]) := by
  unfold WriteCloserBackend.Log HttpBackend.Log
  rw [hw, hh]
  refine ⟨rfl, rfl, fun e he => ?_, fun e he => ?_⟩
  · rw [if_pos rfl, he]
  · rw [if_pos rfl, he]

/-- Witness for C3: a concrete async file wrapper and async HTTP sink whose
deliveries always fail, at a concrete record. -/
theorem async_log_nil_error_one_diag_witness :
    (let w : WriteCloserBackend :=
      { writeCloser := some 3, backend := fun _ _ _ => some "disk full",
        Name := "file:/tmp/app.log", Async := true }
     let hb : HttpBackend :=
      { url := "http://collector.local/ingest", HttpGet := false,
        FormattedOpt := false, Async := true,
        logIO := fun _ _ _ => some "connection refused" }
     (w.Log .ERROR 2 fmtCexRecord).1 = none ∧
       (hb.Log .ERROR 2 fmtCexRecord).1 = none ∧
       (∀ e, w.backend .ERROR 2 fmtCexRecord = some e →
         (w.Log .ERROR 2 fmtCexRecord).2 = [[asyncFailDiag w.Name e]]) ∧
       (∀ e, hb.logIO .ERROR 2 fmtCexRecord = some e →
         (hb.Log .ERROR 2 fmtCexRecord).2 = [[asyncFailDiag hb.url e]])) :=
  async_log_nil_error_one_diag _ _ .ERROR 2 fmtCexRecord rfl rfl

/-! ## File sink identity cache (`NewFileBackend`) -/

/-- Options for a file sink (`FileOptions`); `Perm` is the numeric
`os.FileMode`. -/
structure FileOptions where
  Async : Bool
  Truncate : Bool
  Perm : Nat
deriving DecidableEq, Repr

/-- The `if options.Perm == 0 { options.Perm = 0666 }` normalization that
`NewFileBackend` applies to its local copy of the options before anything
else (438 is octal 0666). -/
def normPerm (o : FileOptions) : FileOptions :=
  if o.Perm = 0 then { o with Perm := 438 } else o

/-- Modelled from the spec: `NewLogBackend(w, "", log.LstdFlags)` (its
source file is not in the repository snapshot) builds the `Backend` that
renders a record through the standard-library logger onto the writer `w`.
Only its identity matters to the claims below; the write I/O is an external
effect, modelled as succeeding. -/
def NewLogBackend (_w : Nat) : Level → Nat → Record → GoErr :=
  fun _ _ _ => none

/-- `NewWriteCloserBackend(name, wc, async)`: wraps the open writer (handle
`wc`) with a stdlib-log rendering backend under the async/sync delivery
wrapper. -/
def NewWriteCloserBackend (name : String) (wc : Nat) (async : Bool) :
    WriteCloserBackend :=
  { writeCloser := some wc, backend := NewLogBackend wc, Name := name,
    Async := async }

/-- A file sink (`FileBackend`): the requested path plus the wrapped
write-closer backend over the opened file handle. -/
structure FileBackend where
  path : String
  wcb : WriteCloserBackend

/-- The filesystem/process side state: the next fresh file-handle id and the
log of successful opens (one entry per open file handle created, with the
options the open used). -/
structure Sys where
  nextHandle : Nat
  opens : List (String × FileOptions)

/-- The outcome `os.Create`/`os.OpenFile` would give for a path and options:
`none` = the open succeeds, `some e` = it fails with error `e`. -/
structure FsOracle where
  openErr : String → FileOptions → Option String

/-- The package-wide `fileMap sync.Map`, path → stored sink.  A `Store`
prepends, so lookup sees the most recent store (overwrite semantics). -/
abbrev FileCache := List (String × FileBackend)

def lookupCache : FileCache → String → Option FileBackend
  | [], _ => none
  | (k, v) :: rest, p => if k = p then some v else lookupCache rest p

def storeCache (c : FileCache) (p : String) (b : FileBackend) : FileCache :=
  (p, b) :: c

/-- `NewFileBackend(path, options)`, sequential (single-caller) semantics:
normalize the permission; if the cache already holds a sink for `path`,
return it; otherwise open the file (`os.Create` when `Truncate`, else
append-mode `os.OpenFile` — both are the one open, attempted with the
normalized options), and on success wrap the handle, store the sink and
return it.  On open failure, return the error without touching the cache. -/
def NewFileBackend (orc : FsOracle) (sys : Sys) (cache : FileCache)
    (path : String) (options : FileOptions) :
    Sys × FileCache × Except String FileBackend :=
  let opts := normPerm options
  match lookupCache cache path with
  | some b => (sys, cache, .ok b)
  | none =>
    match orc.openErr path opts with
    | some e => (sys, cache, .error e)
    | none =>
      let b : FileBackend :=
        { path := path,
          wcb := NewWriteCloserBackend ("file:" ++ path) sys.nextHandle opts.Async }
      ({ nextHandle := sys.nextHandle + 1, opens := sys.opens ++ [(path, opts)] },
        storeCache cache path b, .ok b)

theorem lookupCache_store (c : FileCache) (p : String) (b : FileBackend) :
    lookupCache (storeCache c p b) p = some b := by
  unfold storeCache lookupCache
  rw [if_pos rfl]

theorem newFileBackend_hit (orc : FsOracle) (sys : Sys) (cache : FileCache)
    (path : String) (options : FileOptions) (b : FileBackend)
    (h : lookupCache cache path = some b) :
    NewFileBackend orc sys cache path options = (sys, cache, .ok b) := by
  unfold NewFileBackend
  rw [h]

theorem newFileBackend_miss_ok (orc : FsOracle) (sys : Sys) (cache : FileCache)
    (path : String) (options : FileOptions)
    (h : lookupCache cache path = none)
    (hok : orc.openErr path (normPerm options) = none) :
    NewFileBackend orc sys cache path options =
      ({ nextHandle := sys.nextHandle + 1,
         opens := sys.opens ++ [(path, normPerm options)] },
        storeCache cache path
          { path := path,
            wcb := NewWriteCloserBackend ("file:" ++ path) sys.nextHandle
              (normPerm options).Async },
        .ok { path := path,
              wcb := NewWriteCloserBackend ("file:" ++ path) sys.nextHandle
                (normPerm options).Async }) := by
  unfold NewFileBackend
  simp only [h, hok]

/-- C4 as amended (sequential part): requesting a file sink for the same
path twice in sequence yields exactly one open file handle and one sink
instance — the second call returns the instance stored by the first
(object identity), opens nothing, leaves all state unchanged, and its
options `o2` are ignored entirely (the conclusion is independent of `o2`);
the instance carries the first caller's options. -/
theorem file_backend_dedup_sequential (orc : FsOracle) (sys : Sys)
    (cache : FileCache) (path : String) (o1 o2 : FileOptions)
    (h : lookupCache cache path = none)
    (hok : orc.openErr path (normPerm o1) = none) :
    (NewFileBackend orc (NewFileBackend orc sys cache path o1).1
        (NewFileBackend orc sys cache path o1).2.1 path o2) =
      ((NewFileBackend orc sys cache path o1).1,
        (NewFileBackend orc sys cache path o1).2.1,
        (NewFileBackend orc sys cache path o1).2.2) ∧
      (NewFileBackend orc sys cache path o1).2.2 =
        .ok { path := path,
              wcb := NewWriteCloserBackend ("file:" ++ path) sys.nextHandle
                (normPerm o1).Async } ∧
      (NewFileBackend orc sys cache path o1).1.opens =
        sys.opens ++ [(path, normPerm o1)] := by
  rw [newFileBackend_miss_ok orc sys cache path o1 h hok]
  refine ⟨?_, rfl, rfl⟩
  rw [newFileBackend_hit orc _ _ path o2 _ (lookupCache_store cache path _)]

/-- Witness for the sequential part of C4 at a concrete path, cache and
differing options for the two callers. -/
theorem file_backend_dedup_sequential_witness :
    (lookupCache [] "/var/log/app.log" = none ∧
        FsOracle.openErr ⟨fun _ _ => none⟩ "/var/log/app.log"
          (normPerm ⟨true, false, 0⟩) = none) ∧
      ((NewFileBackend ⟨fun _ _ => none⟩
            (NewFileBackend ⟨fun _ _ => none⟩ ⟨0, []⟩ [] "/var/log/app.log"
              ⟨true, false, 0⟩).1
            (NewFileBackend ⟨fun _ _ => none⟩ ⟨0, []⟩ [] "/var/log/app.log"
              ⟨true, false, 0⟩).2.1 "/var/log/app.log" ⟨false, true, 384⟩) =
          ((NewFileBackend ⟨fun _ _ => none⟩ ⟨0, []⟩ [] "/var/log/app.log"
              ⟨true, false, 0⟩).1,
            (NewFileBackend ⟨fun _ _ => none⟩ ⟨0, []⟩ [] "/var/log/app.log"
              ⟨true, false, 0⟩).2.1,
            (NewFileBackend ⟨fun _ _ => none⟩ ⟨0, []⟩ [] "/var/log/app.log"
              ⟨true, false, 0⟩).2.2) ∧
        (NewFileBackend ⟨fun _ _ => none⟩ ⟨0, []⟩ [] "/var/log/app.log"
            ⟨true, false, 0⟩).2.2 =
          .ok { path := "/var/log/app.log",
                wcb := NewWriteCloserBackend "file:/var/log/app.log" 0
                  (normPerm ⟨true, false, 0⟩).Async } ∧
        (NewFileBackend ⟨fun _ _ => none⟩ ⟨0, []⟩ [] "/var/log/app.log"
            ⟨true, false, 0⟩).1.opens =
          List.nil ++ [("/var/log/app.log", normPerm ⟨true, false, 0⟩)]) :=
  ⟨⟨rfl, rfl⟩,
    file_backend_dedup_sequential ⟨fun _ _ => none⟩ ⟨0, []⟩ []
      "/var/log/app.log" ⟨true, false, 0⟩ ⟨false, true, 384⟩ rfl rfl⟩

/-- C5: if the underlying open fails inside `NewFileBackend`, the cache is
left unchanged, the open error is returned to the caller and no handle is
created, so a subsequent call for the same path retries the open (the
retry's outcome is whatever the filesystem then reports — here shown for a
then-succeeding open). -/
theorem file_backend_open_failure (orc : FsOracle) (sys : Sys)
    (cache : FileCache) (path : String) (options : FileOptions) (e : String)
    (h : lookupCache cache path = none)
    (hfail : orc.openErr path (normPerm options) = some e) :
    NewFileBackend orc sys cache path options = (sys, cache, .error e) ∧
      ∀ orc2 : FsOracle, ∀ o2 : FileOptions,
        orc2.openErr path (normPerm o2) = none →
        (NewFileBackend orc2 (NewFileBackend orc sys cache path options).1
            (NewFileBackend orc sys cache path options).2.1 path o2).1.opens =
          sys.opens ++ [(path, normPerm o2)] := by
  have e1 : NewFileBackend orc sys cache path options = (sys, cache, .error e) := by
    unfold NewFileBackend
    simp only [h, hfail]
  refine ⟨e1, fun orc2 o2 hok2 => ?_⟩
  rw [e1, newFileBackend_miss_ok orc2 sys cache path o2 h hok2]

/-- Witness for C5: a first open failing with "permission denied", then a
succeeding retry. -/
theorem file_backend_open_failure_witness :
    (lookupCache [] "/etc/secure.log" = none ∧
        FsOracle.openErr ⟨fun _ _ => some "permission denied"⟩ "/etc/secure.log"
          (normPerm ⟨false, false, 0⟩) = some "permission denied") ∧
      (NewFileBackend ⟨fun _ _ => some "permission denied"⟩ ⟨5, []⟩ []
          "/etc/secure.log" ⟨false, false, 0⟩ =
        (⟨5, []⟩, [], .error "permission denied") ∧
        ∀ orc2 : FsOracle, ∀ o2 : FileOptions,
          orc2.openErr "/etc/secure.log" (normPerm o2) = none →
          (NewFileBackend orc2
              (NewFileBackend ⟨fun _ _ => some "permission denied"⟩ ⟨5, []⟩ []
                "/etc/secure.log" ⟨false, false, 0⟩).1
              (NewFileBackend ⟨fun _ _ => some "permission denied"⟩ ⟨5, []⟩ []
                "/etc/secure.log" ⟨false, false, 0⟩).2.1
              "/etc/secure.log" o2).1.opens =
            List.nil ++ [("/etc/secure.log", normPerm o2)]) :=
  ⟨⟨rfl, rfl⟩,
    file_backend_open_failure ⟨fun _ _ => some "permission denied"⟩ ⟨5, []⟩ []
      "/etc/secure.log" ⟨false, false, 0⟩ "permission denied" rfl rfl⟩

/-! ### Two concurrent `NewFileBackend` calls

`NewFileBackend` performs `fileMap.Load(path)`, then the file open, then
`fileMap.Store(path, b)` as three separate atomic shared-state accesses —
there is no `LoadOrStore`.  The interleaving model below gives each caller
two atomic steps: the miss-check together with the open (`.start`), and the
construct-and-store (`.opened`).  Grouping `Load` with the open only
*removes* interleavings, so every execution of this coarse model is a
genuine interleaving of the code's atomic accesses. -/

/-- Where one caller of `NewFileBackend` is in its execution. -/
inductive CallPhase where
  | start
  | opened (handle : Nat)
  | done (result : Except String FileBackend)

/-- Local state of one `NewFileBackend` caller: its (already normalized)
options and its phase. -/
structure CallState where
  opts : FileOptions
  phase : CallPhase

/-- Shared state plus the two callers. -/
structure RaceWorld where
  sys : Sys
  cache : FileCache
  c1 : CallState
  c2 : CallState

/-- One atomic step of one `NewFileBackend` caller: from `.start`, check the
cache and — on a miss — perform the open (taking a fresh handle on success);
from `.opened`, construct the sink, `Store` it and return it. -/
def stepCall (orc : FsOracle) (path : String) (sys : Sys) (cache : FileCache)
    (c : CallState) : Sys × FileCache × CallState :=
  match c.phase with
  | .start =>
    match lookupCache cache path with
    | some b => (sys, cache, { c with phase := .done (.ok b) })
    | none =>
      match orc.openErr path c.opts with
      | some e => (sys, cache, { c with phase := .done (.error e) })
      | none =>
        ({ nextHandle := sys.nextHandle + 1, opens := sys.opens ++ [(path, c.opts)] },
          cache, { c with phase := .opened sys.nextHandle })
  | .opened f =>
    (sys,
      storeCache cache path
        { path := path, wcb := NewWriteCloserBackend ("file:" ++ path) f c.opts.Async },
      { c with phase := .done (.ok
          { path := path, wcb := NewWriteCloserBackend ("file:" ++ path) f c.opts.Async }) })
  | .done _ => (sys, cache, c)

/-- Advance caller 1 (`true`) or caller 2 (`false`) by one atomic step. -/
def raceStep (orc : FsOracle) (path : String) (who : Bool) (w : RaceWorld) : RaceWorld :=
  if who then
    { sys := (stepCall orc path w.sys w.cache w.c1).1,
      cache := (stepCall orc path w.sys w.cache w.c1).2.1,
      c1 := (stepCall orc path w.sys w.cache w.c1).2.2, c2 := w.c2 }
  else
    { sys := (stepCall orc path w.sys w.cache w.c2).1,
      cache := (stepCall orc path w.sys w.cache w.c2).2.1,
      c1 := w.c1, c2 := (stepCall orc path w.sys w.cache w.c2).2.2 }

/-- Run the two callers under a given schedule. -/
def runRace (orc : FsOracle) (path : String) : List Bool → RaceWorld → RaceWorld
  | [], w => w
  | s :: rest, w => runRace orc path rest (raceStep orc path s w)

/-- The file handle inside a caller's successful result, if it finished. -/
def phaseHandle : CallPhase → Option (Option Nat)
  | .done (.ok b) => some b.wcb.writeCloser
  | _ => none

/-- A filesystem where every open succeeds. -/
def raceOracle : FsOracle := ⟨fun _ _ => none⟩

/-- Both callers request the same path with the same (normalized) default
options; empty cache, no handles yet. -/
def raceInit : RaceWorld :=
  { sys := { nextHandle := 0, opens := [] }, cache := [],
    c1 := { opts := normPerm ⟨false, false, 0⟩, phase := .start },
    c2 := { opts := normPerm ⟨false, false, 0⟩, phase := .start },
  }

/-- The interleaving in which both callers miss the cache (and open) before
either stores: caller 1 loads-and-opens, caller 2 loads-and-opens, then both
store and return their own instances. -/
def raceFinal : RaceWorld :=
  runRace raceOracle "app.log" [true, false, true, false] raceInit

/-- C4 counterexample: two concurrent `NewFileBackend` calls for the same
path can interleave so that both miss the cache before either stores; the
run opens two file handles and the two callers receive two distinct sink
instances (one over handle 0, one over handle 1), refuting "concurrently or
sequentially, exactly one open file handle and exactly one sink instance". -/
theorem file_backend_dedup_concurrent_counterexample :
    raceFinal.sys.opens.length = 2 ∧
      phaseHandle raceFinal.c1.phase = some (some 0) ∧
      phaseHandle raceFinal.c2.phase = some (some 1) := by
  decide

/-! ## The process-wide sequence counter -/

/-- The modulus of the `uint64` sequence counter. -/
def U64 : Nat := 2 ^ 64

/-- `atomic.AddUint64(&sequenceNo, 1)`: the incremented (wrapping) counter
value, which is both the new counter state and the value the caller
receives as the record's `ID`. -/
def addUint64 (c : Nat) : Nat := (c + 1) % U64

/-- N concurrent record creations, each performing exactly one atomic
increment of the shared counter.  The list gives the callers in the order
in which their atomic increments happen to execute (an arbitrary
interleaving); the result is the final counter and each caller's assigned
ID, in execution order. -/
def assignIds {α : Type} (k : Nat) : List α → Nat × List (α × Nat)
  | [] => (k, [])
  | c :: rest =>
    ((assignIds (addUint64 k) rest).1,
      (c, addUint64 k) :: (assignIds (addUint64 k) rest).2)

theorem assignIds_eq_range' {α : Type} (callers : List α) (k : Nat)
    (h : k + callers.length < U64) :
    (assignIds k callers).2.map Prod.snd = List.range' (k + 1) callers.length ∧
      (assignIds k callers).1 = k + callers.length := by
  induction callers generalizing k with
  | nil => exact ⟨rfl, rfl⟩
  | cons c rest ih =>
    have hlen : (c :: rest).length = rest.length + 1 := rfl
    rw [hlen] at h
    have hk1 : addUint64 k = k + 1 := by
      unfold addUint64
      exact Nat.mod_eq_of_lt (by omega)
    have ih2 := ih (k + 1) (by omega)
    unfold assignIds
    rw [hk1]
    refine ⟨?_, by rw [ih2.2]; omega⟩
    simp only [List.map_cons, ih2.1]
    rfl

/-- C6: sequence IDs assigned to N concurrently created records (each
creation doing one atomic increment of the shared counter, in an arbitrary
interleaving order) are exactly `[k+1, …, k+N]` in execution order — a
permutation of `{k+1, …, k+N}` with no duplicates and no gaps — strictly
increasing in execution order; the counter ends at `k + N`.  (Stated below
the `uint64` wrap, i.e. for `k + N < 2^64`.) -/
theorem sequence_ids_no_dup_no_gap {α : Type} (k : Nat) (callers : List α)
    (h : k + callers.length < U64) :
    (assignIds k callers).2.map Prod.snd = List.range' (k + 1) callers.length ∧
      ((assignIds k callers).2.map Prod.snd).Nodup ∧
      List.Chain' (· < ·) ((assignIds k callers).2.map Prod.snd) ∧
      (assignIds k callers).1 = k + callers.length := by
  obtain ⟨heq, hctr⟩ := assignIds_eq_range' callers k h
  refine ⟨heq, ?_, ?_, hctr⟩
  · rw [heq]
    exact List.nodup_range' _ _
  · rw [heq]
    exact (List.chain'_iff_pairwise).mpr (List.pairwise_lt_range' _ _)

/-- Witness for C6: three concurrent creations starting from counter 10
receive IDs 11, 12, 13. -/
theorem sequence_ids_no_dup_no_gap_witness :
    (10 + ["a", "b", "c"].length < U64) ∧
      ((assignIds 10 ["a", "b", "c"]).2.map Prod.snd =
          List.range' (10 + 1) ["a", "b", "c"].length ∧
        ((assignIds 10 ["a", "b", "c"]).2.map Prod.snd).Nodup ∧
        List.Chain' (· < ·) ((assignIds 10 ["a", "b", "c"]).2.map Prod.snd) ∧
        (assignIds 10 ["a", "b", "c"]).1 = 10 + ["a", "b", "c"].length) :=
  ⟨by norm_num [U64], sequence_ids_no_dup_no_gap 10 ["a", "b", "c"] (by norm_num [U64])⟩

/-! ## The logging call path (`Log.log` and `DefaultWriter`) -/

/-- Which backend a record is forwarded to: the logger's own backend or the
process-wide default backend. -/
inductive Dest where
  | own
  | default
deriving DecidableEq, Repr

/-- One forwarded backend invocation `backend.Log(level, calldepth, record)`. -/
structure BackendCall where
  dest : Dest
  level : Level
  calldepth : Nat
  record : Record
deriving DecidableEq, Repr

/-- The `Log` logger's fields relevant to `Log.log`. -/
structure LogState where
  Module : String
  haveBackend : Bool
  ExtraCalldepth : Nat
deriving DecidableEq, Repr

/-- The record literal built by `Log.log` / `DefaultWriter`'s writer. -/
def mkLogRecord (id time : Nat) (module : String) (lvl : Level)
    (fmtStr : Option (List FmtItem)) (args : List Arg) : Record :=
  { ID := id, Time := time, Module := module, Level := lvl, Args := args,
    message := none, fmtStr := fmtStr, formatted := "" }

/-- `Log.log(lvl, format, args...)`: gate on `l.IsEnabledFor(lvl)` — which
consults the process default backend's table for `l.Module` (`enabled`
abstracts `defaultBackend.IsEnabledFor`) even when the logger has its own
backend — returning untouched state when disabled; when enabled, build the
record under one atomic counter increment (`seq` is the shared counter,
`time` the clock reading) and forward it, with calldepth
`2 + l.ExtraCalldepth`, to the logger's own backend when `haveBackend` and
to the default backend otherwise. -/
def logMethod (enabled : Level → String → Bool) (l : LogState) (seq time : Nat)
    (lvl : Level) (fmtStr : Option (List FmtItem)) (args : List Arg) :
    Nat × Option BackendCall :=
  if !(enabled lvl l.Module) then (seq, none)
  else
    (addUint64 seq,
      some { dest := if l.haveBackend then .own else .default,
             level := lvl, calldepth := 2 + l.ExtraCalldepth,
             record := mkLogRecord (addUint64 seq) time l.Module lvl fmtStr args })

/-- The writer closure built by `DefaultWriter(l, module)`: gate on the
logger's own `IsEnabledFor` (`enabledL`); when enabled, build the record
(module taken from the `DefaultWriter` argument) under one atomic counter
increment and forward it to `l.Backend()` when non-nil (`hasOwnBackend`),
else the default backend. -/
def defaultWriterWrite (enabledL : Level → Bool) (hasOwnBackend : Bool)
    (module : String) (seq time : Nat) (lvl : Level) (extraCalldepth : Nat)
    (fmtStr : Option (List FmtItem)) (args : List Arg) :
    Nat × Option BackendCall :=
  if !(enabledL lvl) then (seq, none)
  else
    (addUint64 seq,
      some { dest := if hasOwnBackend then .own else .default,
             level := lvl, calldepth := 2 + extraCalldepth,
             record := mkLogRecord (addUint64 seq) time module lvl fmtStr args })

/-- C8: when the (level, module) pair is not enabled, the logging call has
no observable effect — no record is built, the shared sequence counter is
untouched and no backend `Log` is invoked; when enabled, exactly one record
is built (under one counter increment) and forwarded to the logger's own
backend when it has one, else to the default backend.  Stated for both
`Log.log` and the `DefaultWriter` writer. -/
theorem log_gate_frame (enabled : Level → String → Bool) (enabledL : Level → Bool)
    (l : LogState) (module : String) (hasOwn : Bool) (seq time extraCd : Nat)
    (lvl : Level) (fmtStr : Option (List FmtItem)) (args : List Arg) :
    (enabled lvl l.Module = false →
      logMethod enabled l seq time lvl fmtStr args = (seq, none)) ∧
      (enabled lvl l.Module = true →
        logMethod enabled l seq time lvl fmtStr args =
          (addUint64 seq,
            some { dest := if l.haveBackend then .own else .default,
                   level := lvl, calldepth := 2 + l.ExtraCalldepth,
                   record := mkLogRecord (addUint64 seq) time l.Module lvl fmtStr args })) ∧
      (enabledL lvl = false →
        defaultWriterWrite enabledL hasOwn module seq time lvl extraCd fmtStr args =
          (seq, none)) ∧
      (enabledL lvl = true →
        defaultWriterWrite enabledL hasOwn module seq time lvl extraCd fmtStr args =
          (addUint64 seq,
            some { dest := if hasOwn then .own else .default,
                   level := lvl, calldepth := 2 + extraCd,
                   record := mkLogRecord (addUint64 seq) time module lvl fmtStr args })) := by
  refine ⟨fun h => ?_, fun h => ?_, fun h => ?_, fun h => ?_⟩ <;>
    simp [logMethod, defaultWriterWrite, h]

/-- Witness for C8: a threshold enabling WARNING and above; a NOTICE call is
suppressed with no counter movement, an ERROR call is built and forwarded. -/
theorem log_gate_frame_witness :
    (((fun (lv : Level) (_ : String) => decide (lv.toNat ≤ 2)) Level.NOTICE
        (LogState.Module ⟨"svc.api.http", true, 0⟩) = false) ∧
      logMethod (fun lv _ => decide (lv.toNat ≤ 2)) ⟨"svc.api.http", true, 0⟩
        41 7 .NOTICE none [.plain "m"] = (41, none)) ∧
      (((fun (lv : Level) (_ : String) => decide (lv.toNat ≤ 2)) Level.ERROR
          (LogState.Module ⟨"svc.api.http", true, 0⟩) = true) ∧
        logMethod (fun lv _ => decide (lv.toNat ≤ 2)) ⟨"svc.api.http", true, 0⟩
          41 7 .ERROR none [.plain "m"] =
          (addUint64 41,
            some { dest := .own, level := .ERROR, calldepth := 2,
                   record := mkLogRecord (addUint64 41) 7 "svc.api.http" .ERROR
                     none [.plain "m"] })) ∧
      (((fun (lv : Level) => decide (lv.toNat ≤ 2)) Level.NOTICE = false) ∧
        defaultWriterWrite (fun lv => decide (lv.toNat ≤ 2)) false "svc.worker"
          41 7 .NOTICE 1 none [] = (41, none)) ∧
      (((fun (lv : Level) => decide (lv.toNat ≤ 2)) Level.ERROR = true) ∧
        defaultWriterWrite (fun lv => decide (lv.toNat ≤ 2)) false "svc.worker"
          41 7 .ERROR 1 none [] =
          (addUint64 41,
            some { dest := .default, level := .ERROR, calldepth := 3,
                   record := mkLogRecord (addUint64 41) 7 "svc.worker" .ERROR
                     none [] })) :=
  ⟨⟨rfl, (log_gate_frame (fun lv _ => decide (lv.toNat ≤ 2))
      (fun lv => decide (lv.toNat ≤ 2)) ⟨"svc.api.http", true, 0⟩ "svc.worker"
      false 41 7 1 .NOTICE none [.plain "m"]).1 rfl⟩,
    ⟨rfl, by
      have h := (log_gate_frame (fun lv _ => decide (lv.toNat ≤ 2))
        (fun lv => decide (lv.toNat ≤ 2)) ⟨"svc.api.http", true, 0⟩ "svc.worker"
        false 41 7 1 .ERROR none [.plain "m"]).2.1 rfl
      simpa using h⟩,
    ⟨rfl, (log_gate_frame (fun lv _ => decide (lv.toNat ≤ 2))
      (fun lv => decide (lv.toNat ≤ 2)) ⟨"svc.api.http", true, 0⟩ "svc.worker"
      false 41 7 1 .NOTICE none []).2.2.1 rfl⟩,
    ⟨rfl, by
      have h := (log_gate_frame (fun lv _ => decide (lv.toNat ≤ 2))
        (fun lv => decide (lv.toNat ≤ 2)) ⟨"svc.api.http", true, 0⟩ "svc.worker"
        false 41 7 1 .ERROR none []).2.2.2 rfl
      simpa using h⟩⟩

/-! ## Prefix-decorated logger (`LogPrefix`; spelled `LogPfx` here because
`prefix` is reserved in Lean) -/

/-- `LogPrefix`: holds the parent `Logger` (modelled by an opaque id) and
the prefix string field (`prefix`, spelled `pfx` here). -/
structure LogPfx where
  parentId : Nat
  pfx : String
deriving DecidableEq, Repr

/-- `Prefix()`. -/
def LogPfx.Pfx (this : LogPfx) : String := this.pfx

/-- The body of `SetPrefix(v)`: assign `v` to the receiver's prefix field.
The receiver is a *value* receiver, so the body acts on a copy. -/
def LogPfx.SetPfxBody (this : LogPfx) (v : String) : LogPfx :=
  { this with pfx := v }

/-- Go call semantics for a value-receiver method on the stored `LogPrefix`:
the stored value is copied into the receiver, the body runs on (and
mutates) that copy, and the copy is discarded when the method returns — the
stored value is unchanged. -/
def callSetPfx (cell : LogPfx) (v : String) : LogPfx :=
  let receiver := cell
  let _updated := receiver.SetPfxBody v
  cell

/-- Any sequence of `SetPrefix` calls, in order. -/
def applySetPfxCalls (cell : LogPfx) : List String → LogPfx
  | [] => cell
  | v :: rest => applySetPfxCalls (callSetPfx cell v) rest

/-- What `Infof(format, args...)` forwards to the parent logger as the
format string: `this.prefix + " " + format`. -/
def LogPfx.InfofForward (this : LogPfx) (format : String) : String :=
  this.pfx ++ " " ++ format

/-- What `Info(args...)` forwards to the parent logger as the argument
list: the prefix prepended (`append([]interface{}{this.prefix}, args...)`). -/
def LogPfx.InfoForward (this : LogPfx) (args : List Arg) : List Arg :=
  .plain this.pfx :: args

/-- `WithPrefix(parent, prefix, sep...)`: trim the prefix and append the
first separator (default `" ->"`). -/
def WithPfx (parentId : Nat) (p : String) (sep : List String) : LogPfx :=
  { parentId := parentId,
    pfx := p.trim ++ (match sep with | [] => " ->" | s :: _ => s) }

/-- C9: `SetPrefix` mutates a by-value copy of the receiver, so no sequence
of `SetPrefix` calls ever changes the stored `LogPrefix`: `Prefix()`
returns the same string before and after, and the logging methods keep
prepending the original prefix (shown for `Info`/`Infof`; the other level
methods forward identically). -/
theorem setPrefix_has_no_effect (cell : LogPfx) (vs : List String)
    (format : String) (args : List Arg) :
    applySetPfxCalls cell vs = cell ∧
      (applySetPfxCalls cell vs).Pfx = cell.Pfx ∧
      (applySetPfxCalls cell vs).InfofForward format =
        cell.pfx ++ " " ++ format ∧
      (applySetPfxCalls cell vs).InfoForward args = .plain cell.pfx :: args := by
  have key : applySetPfxCalls cell vs = cell := by
    induction vs with
    | nil => rfl
    | cons v rest ih => exact ih
  exact ⟨key, by rw [key], by rw [key]; rfl, by rw [key]; rfl⟩

/-! ## Closer retention in `NewBackendClose` / `NewBackendPrintClose` -/

/-- An `io.Closer` value: an identity and the error its `Close()` returns. -/
structure Closer where
  id : Nat
  closeErr : GoErr
deriving DecidableEq, Repr

/-- The loop `var c io.Closer; for _, c = range closer {}`: an empty-bodied
range loop whose sole effect is to leave `c` holding the final element
(`nil` for an empty list). -/
def lastCloser (cs : List Closer) : Option Closer :=
  cs.foldl (fun _ c => some c) none

/-- `backendClose`: the embedded backend (opaque id) plus the single
retained closer (`nil` when none was retained). -/
structure backendClose where
  backend : Nat
  closer : Option Closer
deriving DecidableEq, Repr

/-- `NewBackendClose(backend, closer...)`. -/
def NewBackendClose (backend : Nat) (closer : List Closer) : backendClose :=
  { backend := backend, closer := lastCloser closer }

/-- `NewBackendPrintClose(backend, closer...)` — the source builds the same
`backendClose` value with the same last-element loop. -/
def NewBackendPrintClose (backend : Nat) (closer : List Closer) : backendClose :=
  { backend := backend, closer := lastCloser closer }

/-- `backendClose.Close()`: close the retained closer if non-nil, returning
its error, else return nil.  The second component records which closer ids
actually get closed. -/
def backendClose.Close (this : backendClose) : GoErr × List Nat :=
  match this.closer with
  | some c => (c.closeErr, [c.id])
  | none => (none, [])

/-- The last element of a closer list, written directly from the claim's
words ("retain only the last closer"). -/
def lastOf : List Closer → Option Closer
  | [] => none
  | [c] => some c
  | _ :: c :: rest => lastOf (c :: rest)

theorem foldl_some_eq_lastOf (cs : List Closer) (a : Closer) :
    cs.foldl (fun _ c => some c) (some a) = lastOf (a :: cs) := by
  induction cs generalizing a with
  | nil => rfl
  | cons x xs ih => exact ih x

theorem lastCloser_eq_lastOf (cs : List Closer) : lastCloser cs = lastOf cs := by
  cases cs with
  | nil => rfl
  | cons x xs => exact foldl_some_eq_lastOf xs x

/-- C10: `NewBackendClose` and `NewBackendPrintClose` retain only the last
closer of their variadic list — earlier closers are discarded and `Close()`
never closes them — and `Close()` on a backend built from an empty closer
list returns nil. -/
theorem backends_retain_only_last_closer (b : Nat) (cs : List Closer) :
    (NewBackendClose b cs).closer = lastOf cs ∧
      (NewBackendPrintClose b cs).closer = lastOf cs ∧
      ((NewBackendClose b cs).Close).2 =
        (match lastOf cs with | some c => [c.id] | none => []) ∧
      ((NewBackendPrintClose b cs).Close).2 =
        (match lastOf cs with | some c => [c.id] | none => []) ∧
      (NewBackendClose b []).Close = (none, []) ∧
      (NewBackendPrintClose b []).Close = (none, []) := by
  have h := lastCloser_eq_lastOf cs
  cases hl : lastOf cs with
  | none =>
    rw [hl] at h
    refine ⟨?_, ?_, ?_, ?_, rfl, rfl⟩ <;>
      simp [NewBackendClose, NewBackendPrintClose, backendClose.Close, h, hl]
  | some c =>
    rw [hl] at h
    refine ⟨?_, ?_, ?_, ?_, rfl, rfl⟩ <;>
      simp [NewBackendClose, NewBackendPrintClose, backendClose.Close, h, hl]

end GoLogging
